import Mathlib

/-!
Verification of the incremental relational-sklearn core of this repository.

The accumulator, scheduler and backend definitions below are shallow
embeddings. The library code itself (lale.lib.rasl) is not part of the
given sources, only its test suite is, so those definitions are modelled
from the specification (and pinned, where the spec gives concrete
examples, to the behavior the test suite asserts). The bagging-regressor
definitions at the end embed src/lale/lib/sklearn/bagging_regressor.py
directly.

Numeric cells are modelled as rationals, so the floating-point tolerance
mentioned by the spec ("1e-6 relative") becomes exact equality.
-/

/-! ### Range accumulator (min-max scaling) -/

/-- Modelled from the spec: state of the range accumulator of the missing
lale.lib.rasl MinMaxScaler — per-column (min, max) bounds (absent until a
value is seen) plus a row count. -/
structure RangeState where
  bounds : Option (ℚ × ℚ)
  count : ℕ
deriving DecidableEq, Repr

/-- Modelled from the spec: fold one value into running (min, max) bounds. -/
def rstep (acc : Option (ℚ × ℚ)) (x : ℚ) : Option (ℚ × ℚ) :=
  match acc with
  | none => some (x, x)
  | some (lo, hi) => some (min lo x, max hi x)

/-- Modelled from the spec: `update` of the range accumulator — the local
statistic of one batch (a single column of values). -/
def rangeUpdate (b : List ℚ) : RangeState :=
  ⟨b.foldl rstep none, b.length⟩

/-- Modelled from the spec: merge two optional (min, max) bounds. -/
def obCombine : Option (ℚ × ℚ) → Option (ℚ × ℚ) → Option (ℚ × ℚ)
  | none, y => y
  | some p, none => some p
  | some (l₁, h₁), some (l₂, h₂) => some (min l₁ l₂, max h₁ h₂)

/-- Modelled from the spec: `combine` of the range accumulator —
element-wise min/max, count sum. -/
def rangeCombine (a b : RangeState) : RangeState :=
  ⟨obCombine a.bounds b.bounds, a.count + b.count⟩

/-- Modelled from the spec: incremental fit — start from the empty state and
merge `update` of each batch in order (one `partial_fit` call per batch). -/
def rangeIncFit (L : List (List ℚ)) : RangeState :=
  L.foldl (fun st b => rangeCombine st (rangeUpdate b)) (rangeUpdate [])

/-! ### Mean/variance accumulator (standardization) -/

/-- Modelled from the spec: state of the mean/variance accumulator of the
missing lale.lib.rasl StandardScaler — (count, mean, sum of squared
deviations), merged by the Chan et al. parallel-variance formula. -/
@[ext]
structure MVState where
  n : ℕ
  mean : ℚ
  m2 : ℚ
deriving DecidableEq, Repr

/-- Modelled from the spec: `update` of the mean/variance accumulator —
the local statistic of one batch (a single column of values). -/
def mvUpdate (b : List ℚ) : MVState :=
  let m : ℚ := b.sum / (b.length : ℚ)
  ⟨b.length, m, (b.map (fun x => (x - m) ^ 2)).sum⟩

/-- Modelled from the spec: `combine` via the Chan et al. update:
n = n_a + n_b, delta = mean_b - mean_a, mean = mean_a + delta·n_b/n,
M2 = M2_a + M2_b + delta²·n_a·n_b/n. -/
def mvCombine (a b : MVState) : MVState :=
  let n : ℕ := a.n + b.n
  let delta : ℚ := b.mean - a.mean
  ⟨n, a.mean + delta * (b.n : ℚ) / (n : ℚ),
    a.m2 + b.m2 + delta ^ 2 * (a.n : ℚ) * (b.n : ℚ) / (n : ℚ)⟩

/-- Modelled from the spec: incremental fit of the mean/variance
accumulator over a batch sequence. -/
def mvIncFit (L : List (List ℚ)) : MVState :=
  L.foldl (fun st b => mvCombine st (mvUpdate b)) (mvUpdate [])

/-- Sum of squares of a column. -/
def sumSq (b : List ℚ) : ℚ := (b.map (fun x => x ^ 2)).sum

/-! ### Category-set accumulator (ordinal / one-hot encoding) -/

/-- Modelled from the spec: `update` of the category-set accumulator of the
missing lale.lib.rasl OrdinalEncoder / OneHotEncoder — the set of distinct
values observed in one batch column. -/
def catUpdate (b : List ℤ) : Finset ℤ := b.toFinset

/-- Modelled from the spec: `combine` of the category-set accumulator —
union of the observed-value sets. -/
def catCombine (a b : Finset ℤ) : Finset ℤ := a ∪ b

/-- Modelled from the spec: incremental fit of the category-set
accumulator over a batch sequence. -/
def catIncFit (M : List (List ℤ)) : Finset ℤ :=
  M.foldl (fun st b => catCombine st (catUpdate b)) (catUpdate [])

/-- Modelled from the spec: finalize of the category-set accumulator —
the sorted list of observed categories (the deterministic order the
reference library uses). -/
def catFinalize (s : Finset ℤ) : List ℤ := s.sort (· ≤ ·)

/-! ### Univariate-score accumulator (k-best feature selection) -/

/-- Modelled from the spec: state of the univariate-score accumulator of
the missing lale.lib.rasl SelectKBest — for each class label, the running
(count, sum, sum-of-squares) of the feature values of that class. -/
def scUpdate (b : List (ℕ × ℚ)) : ℕ → ℕ × ℚ × ℚ :=
  fun c =>
    let vs := (b.filter (fun r => r.1 == c)).map (fun r => r.2)
    (vs.length, vs.sum, (vs.map (fun x => x ^ 2)).sum)

/-- Modelled from the spec: `combine` of the univariate-score accumulator —
pointwise sums per class. -/
def scCombine (f g : ℕ → ℕ × ℚ × ℚ) : ℕ → ℕ × ℚ × ℚ :=
  fun c => ((f c).1 + (g c).1, (f c).2.1 + (g c).2.1, (f c).2.2 + (g c).2.2)

/-- Modelled from the spec: incremental fit of the univariate-score
accumulator over a labeled batch sequence. -/
def scIncFit (S : List (List (ℕ × ℚ))) : ℕ → ℕ × ℚ × ℚ :=
  S.foldl (fun st b => scCombine st (scUpdate b)) (scUpdate [])

/-! ### Finalizers / TrainedParams -/

/-- Modelled from the spec: trained parameters of the min-max scaler, in
the reference library's layout: data min, data max, scale and offset
(`min_`), so that transform is `x * scale + minOff`. -/
structure MMParams where
  dmin : ℚ
  dmax : ℚ
  scale : ℚ
  minOff : ℚ
deriving DecidableEq, Repr

/-- Modelled from the spec: a zero observed range (`max == min`) maps to a
configured safe scale — the degenerate denominator is replaced by 1. -/
def safeDenom (r : ℚ) : ℚ := if r = 0 then 1 else r

/-- Modelled from the spec: finalize of the range accumulator for a
configured output range (low, high); `none` when no value was seen. -/
def rangeFinalize (low high : ℚ) (s : RangeState) : Option MMParams :=
  s.bounds.map (fun p =>
    let sc := (high - low) / safeDenom (p.2 - p.1)
    ⟨p.1, p.2, sc, low - p.1 * sc⟩)

/-- Modelled from the spec: transform of the trained min-max scaler on one
cell — pure function of the TrainedParams. -/
def mmTransform (p : MMParams) (x : ℚ) : ℚ := x * p.scale + p.minOff

/-- Modelled from the spec: finalize of the mean/variance accumulator —
count of samples seen, mean, and population variance M2/n. -/
def mvFinalize (s : MVState) : ℕ × ℚ × ℚ :=
  (s.n, s.mean, s.m2 / (s.n : ℚ))

/-- Modelled from the spec: transform of the trained standard scaler on
one cell (centering only; the rational model carries the variance, the
square-root rescaling lives outside ℚ). -/
def msTransform (mean : ℚ) (x : ℚ) : ℚ := x - mean

/-! ### Scheduler (task-graph executor) and scheduling policies

Modelled from the spec: a pipeline is a list of steps over a common
accumulator-state type; a task (step s, batch b) merges `update` of its
input batch into step s's state and immediately transforms the batch with
the state as it stands, forwarding it to step s+1. `StepPriority` runs
one step across all batches before the next step; `BatchPriority` runs
one batch through all steps before the next batch. -/

/-- Modelled from the spec: one pipeline step of the missing task-graph
executor — an initial (empty) accumulator state, the per-batch `update`,
the associative `combine`, and a transform parameterized by the current
state. -/
structure SchedStep (σ : Type) where
  init : σ
  update : List ℚ → σ
  combine : σ → σ → σ
  transformWith : σ → List ℚ → List ℚ

/-- Modelled from the spec: execute task (s, b) — `partial_fit` (combine
with update of the batch) followed by an eager transform with the state
as it stands after this batch. -/
def schedTask (st : SchedStep σ) (acc : σ) (b : List ℚ) : σ × List ℚ :=
  let acc' := st.combine acc (st.update b)
  (acc', st.transformWith acc' b)

/-- Modelled from the spec, StepPriority inner loop: advance one step
across a batch sequence, returning the final state and the transformed
batches in order. -/
def runStepAll (st : SchedStep σ) (acc : σ) :
    List (List ℚ) → σ × List (List ℚ)
  | [] => (acc, [])
  | b :: rest =>
    let r := schedTask st acc b
    let rec' := runStepAll st r.1 rest
    (rec'.1, r.2 :: rec'.2)

/-- Modelled from the spec: `fit_with_batches` under the StepPriority
policy — complete all (s, ·) tasks before any (s+1, ·) task; returns each
step's final accumulator state. -/
def execStepPrio : List (SchedStep σ) → List (List ℚ) → List σ
  | [], _ => []
  | s :: rest, bs =>
    let r := runStepAll s s.init bs
    r.1 :: execStepPrio rest r.2

/-- Modelled from the spec, BatchPriority inner loop: push one batch
through every remaining step, threading the transformed batch downstream
and updating each step's state. -/
def pipeOne : List (SchedStep σ × σ) → List ℚ → List (SchedStep σ × σ)
  | [], _ => []
  | (s, a) :: rest, b =>
    let r := schedTask s a b
    (s, r.1) :: pipeOne rest r.2

/-- Modelled from the spec: `fit_with_batches` under the BatchPriority
policy — complete all steps for batch b before touching batch b+1;
returns each step's final accumulator state. -/
def execBatchPrio (steps : List (SchedStep σ)) (bs : List (List ℚ)) :
    List σ :=
  (bs.foldl pipeOne (steps.map (fun s => (s, s.init)))).map (fun p => p.2)

/-! ### Backends (claim C3)

Modelled from the spec: the in-memory backend materializes a logical
column as one table (a single list of rows); the distributed backend
materializes the same rows split into partitions whose concatenation is
the logical column, and computes every aggregation per partition before
merging with the accumulator's `combine`. -/

/-- Modelled from the spec: one-shot fit of the min-max scaler on the
in-memory backend. -/
def pandasFitMM (low high : ℚ) (D : List ℚ) : Option MMParams :=
  rangeFinalize low high (rangeUpdate D)

/-- Modelled from the spec: one-shot fit of the min-max scaler on the
distributed backend (per-partition statistics merged with combine). -/
def sparkFitMM (low high : ℚ) (P : List (List ℚ)) : Option MMParams :=
  rangeFinalize low high (rangeIncFit P)

/-- Modelled from the spec: one-shot fit of the standard scaler on the
in-memory backend. -/
def pandasFitMV (D : List ℚ) : ℕ × ℚ × ℚ := mvFinalize (mvUpdate D)

/-- Modelled from the spec: one-shot fit of the standard scaler on the
distributed backend. -/
def sparkFitMV (P : List (List ℚ)) : ℕ × ℚ × ℚ := mvFinalize (mvIncFit P)

/-- Modelled from the spec: category list fitted on the in-memory
backend. -/
def pandasFitCat (D : List ℤ) : List ℤ := catFinalize (catUpdate D)

/-- Modelled from the spec: category list fitted on the distributed
backend. -/
def sparkFitCat (M : List (List ℤ)) : List ℤ := catFinalize (catIncFit M)

/-- Modelled from the spec: row-aligned transform of a whole column with
trained min-max parameters (`none` propagates a failed fit). -/
def mmTransformCol (p : Option MMParams) (col : List ℚ) : Option (List ℚ) :=
  p.map (fun q => col.map (mmTransform q))

/-! ### Frequency-table finalize and tie-break (claim C4) -/

/-- Modelled from the spec: the maximum frequency of any value of the
column (the frequency table is `l.count`). -/
def maxCount {α : Type} [DecidableEq α] (l : List α) : ℕ :=
  (l.map (fun v => l.count v)).foldr max 0

/-- Modelled from the spec: the values of the column whose frequency is
maximal (the tied candidates of the most-frequent statistic). -/
def freqModes {α : Type} [DecidableEq α] (l : List α) : List α :=
  l.filter (fun v => l.count v == maxCount l)

/-- Modelled from the spec and pinned to the test suite's assertions
(test_multiple_modes_numeric): finalize of the frequency-table
accumulator on a numeric column — missing cells (`none`, i.e. NaN) are
dropped and the largest value among those tied for maximum count is
returned. -/
def mostFrequentNum (vals : List (Option ℚ)) : WithBot ℚ :=
  (freqModes (vals.filterMap id)).maximum

/-- Stated from the spec's words only, for comparison with the code's
behavior: the smallest value among those tied for maximum count. -/
def specSmallestNum (vals : List (Option ℚ)) : WithTop ℚ :=
  (freqModes (vals.filterMap id)).minimum

/-- Byte-wise lexicographic order on character lists (the natural
ordering of strings). -/
def chLexLt : List Char → List Char → Bool
  | [], [] => false
  | [], _ :: _ => true
  | _ :: _, [] => false
  | a :: as, b :: bs =>
    if a.val < b.val then true
    else if b.val < a.val then false
    else chLexLt as bs

/-- The natural ordering on strings, computably. -/
def strLtB (a b : String) : Bool := chLexLt a.data b.data

/-- Largest element of a list under an explicit comparator. -/
def listMaxBy {α : Type} (lt : α → α → Bool) (l : List α) : Option α :=
  l.foldl (fun acc v =>
    match acc with
    | none => some v
    | some w => if lt w v then some v else some w) none

/-- Smallest element of a list under an explicit comparator. -/
def listMinBy {α : Type} (lt : α → α → Bool) (l : List α) : Option α :=
  l.foldl (fun acc v =>
    match acc with
    | none => some v
    | some w => if lt v w then some v else some w) none

/-- Modelled from the spec and pinned to the test suite's assertions
(test_multiple_modes_string): finalize of the frequency-table accumulator
on a string column — the missing sentinel is dropped and the largest
value (natural string order) among those tied for maximum count is
returned. -/
def mostFrequentStr (missing : String) (vals : List String) : Option String :=
  listMaxBy strLtB (freqModes (vals.filter (fun v => !(v == missing))))

/-- Stated from the spec's words only, for comparison: the smallest tied
value of a string column. -/
def specSmallestStr (missing : String) (vals : List String) : Option String :=
  listMinBy strLtB (freqModes (vals.filter (fun v => !(v == missing))))

/-- The spec's numeric example column: values 10,14,15,15,14,NaN. -/
def numExample : List (Option ℚ) :=
  [some 10, some 14, some 15, some 15, some 14, none]

/-- The spec's string example column with "missing" as the sentinel. -/
def strExample : List String := ["t", "f", "m", "f", "m", "missing"]

/-! ### SimpleImputer strategies and incremental-fit validation (claim C5) -/

/-- Modelled from the spec: the imputation strategies of the missing
lale.lib.rasl SimpleImputer. -/
inductive Strategy where
  | mean
  | median
  | mostFrequent
  | constant
deriving DecidableEq, Repr

/-- Modelled from the spec §7: the typed error kinds of the missing core
(validation failure, BackendUnsupportedOperation, EmptyBatchError). -/
inductive FitError where
  | validationError
  | backendUnsupported
  | emptyBatch
deriving DecidableEq, Repr

/-- Modelled from the spec: running state of the numeric SimpleImputer —
count and sum of the non-missing values, sufficient for the mean
strategy (the constant strategy is stateless). -/
structure ImpState where
  cnt : ℕ
  total : ℚ
deriving DecidableEq, Repr

/-- Modelled from the spec: local batch statistic of the imputer. -/
def impUpdate (b : List ℚ) : ImpState := ⟨b.length, b.sum⟩

/-- Modelled from the spec: merge of two imputer states. -/
def impCombine (a b : ImpState) : ImpState :=
  ⟨a.cnt + b.cnt, a.total + b.total⟩

/-- Modelled from the spec: which strategies are decomposable into
batch-mergeable sufficient statistics — median and most_frequent are
not. -/
def supportsIncr : Strategy → Bool
  | .mean => true
  | .constant => true
  | .median => false
  | .mostFrequent => false

/-- Modelled from the spec and the tests (test_invalid_partial_fit):
incremental fit of SimpleImputer — median and most_frequent must fail
with a validation error rather than approximate; mean and constant merge
the batch statistic into the state. -/
def imputerIncrFit (s : Strategy) (st : ImpState) (b : List ℚ) :
    Except FitError ImpState :=
  if supportsIncr s then .ok (impCombine st (impUpdate b))
  else .error .validationError

/-! ### SelectKBest over backends (claim C6) -/

/-- Modelled from the spec and the tests: the three data materializations
the test suite drives — in-memory pandas, distributed Spark, and
distributed Spark with a stable row index. -/
inductive Backend where
  | pandas
  | spark
  | sparkWithIndex
deriving DecidableEq, Repr

/-- Modelled from the spec: per-class (label, count, sum, sum-of-squares)
summaries of a labeled dataset — the finalize-time content of the
univariate-score accumulator, sufficient to recompute an F-statistic. -/
def skbSummaries (X : List (ℕ × ℚ)) : List (ℕ × ℕ × ℚ × ℚ) :=
  ((X.map (fun r => r.1)).dedup).map (fun c => (c, scUpdate X c))

/-- Modelled from the spec and the tests (TestSelectKBest.test_fit): fit
of SelectKBest — fails fast with BackendUnsupportedOperation on the plain
distributed backend, computes the score summaries on the in-memory
backend and on the distributed backend with index, and fails on an empty
dataset. -/
def selectKBestFit (bk : Backend) (X : List (ℕ × ℚ)) :
    Except FitError (List (ℕ × ℕ × ℚ × ℚ)) :=
  match bk with
  | .spark => .error .backendUnsupported
  | _ => if X = [] then .error .emptyBatch else .ok (skbSummaries X)

/-! ### Constant-fill cells (claim C8) -/

/-- Modelled from the spec: one tabular cell — numeric, string, or
missing. -/
inductive CellVal where
  | num (q : ℚ)
  | str (s : String)
  | missing
deriving DecidableEq, Repr

/-- Modelled from the spec: the dtype of a column. -/
inductive Dtype where
  | numericCol
  | stringCol
deriving DecidableEq, Repr

/-- Modelled from the spec: the dtype-dependent default fill value of the
constant strategy — numeric 0, string "missing_value". -/
def defaultFill : Dtype → CellVal
  | .numericCol => .num 0
  | .stringCol => .str "missing_value"

/-- Modelled from the spec: the fill value actually used — the configured
fill_value when present, otherwise the dtype default. -/
def constantFillValue (dt : Dtype) (configured : Option CellVal) : CellVal :=
  configured.getD (defaultFill dt)

/-- Modelled from the spec: transform of the constant-strategy imputer —
replace each missing cell with the fill value, leave the rest alone. -/
def imputeTransform (fill : CellVal) (col : List CellVal) : List CellVal :=
  col.map (fun cell => if cell = .missing then fill else cell)

/-! ### MinMaxScaler construction-time validation (claim C10) -/

/-- Modelled from the spec and the tests (TestMinMaxScaler.test_error):
hyperparameters of the incremental min-max scaler. -/
structure MMHyper where
  low : ℚ
  high : ℚ
  copy : Bool
  clip : Bool
deriving DecidableEq, Repr

/-- Modelled from the spec and the tests: schema validation at
construction — copy=False and clip=True are rejected before any batch is
processed; an accepted configuration yields the untrained scaler (its
feature range). -/
def mkMinMaxScaler (h : MMHyper) : Except FitError (ℚ × ℚ) :=
  if h.copy = false then .error .validationError
  else if h.clip = true then .error .validationError
  else .ok (h.low, h.high)

/-! ### _BaggingRegressorImpl (src/lale/lib/sklearn/bagging_regressor.py) -/

/-- A value of the estimator hyperparameter of _BaggingRegressorImpl:
the schema defaults None and "deprecated", a user-supplied base operator,
or the pipeline `FunctionTransformer >> e` that fit builds
(bagging_regressor.py lines 47-56). -/
inductive EstVal where
  | noneE
  | deprecatedE
  | baseOp
  | comp (e : EstVal)
deriving DecidableEq, Repr

/-- The state of a _BaggingRegressorImpl: the two estimator-related
entries of `self._hyperparams` and the estimator configuration captured
inside `self._wrapped_model` (bagging_regressor.py lines 26-29, 57). -/
structure BRState where
  base_estimator : EstVal
  estimator : EstVal
  wrapped_base : EstVal
  wrapped_est : EstVal
deriving DecidableEq, Repr

/-- `_get_estimator_param_name` (bagging_regressor.py lines 31-36):
"estimator" when base_estimator is None or "deprecated", else
"base_estimator". -/
def getEstimatorParamName (s : BRState) : String :=
  match s.base_estimator with
  | .noneE => "estimator"
  | .deprecatedE => "estimator"
  | .baseOp => "base_estimator"
  | .comp _ => "base_estimator"

/-- The estimator hyperparameter entry selected by
`_get_estimator_param_name`. -/
def estSlot (s : BRState) : EstVal :=
  match s.base_estimator with
  | .noneE => s.estimator
  | .deprecatedE => s.estimator
  | _ => s.base_estimator

/-- `fit` (bagging_regressor.py lines 45-60): when X is a pandas
DataFrame, replace the selected estimator hyperparameter by the
composition `FunctionTransformer >> estimator` and rebuild the wrapped
model from the updated hyperparameters; otherwise leave the
hyperparameters and wrapped model untouched. -/
def brFit (isDataFrame : Bool) (s : BRState) : BRState :=
  if isDataFrame then
    match s.base_estimator with
    | .noneE =>
      { s with estimator := EstVal.comp s.estimator,
               wrapped_base := s.base_estimator,
               wrapped_est := EstVal.comp s.estimator }
    | .deprecatedE =>
      { s with estimator := EstVal.comp s.estimator,
               wrapped_base := s.base_estimator,
               wrapped_est := EstVal.comp s.estimator }
    | _ =>
      { s with base_estimator := EstVal.comp s.base_estimator,
               wrapped_base := EstVal.comp s.base_estimator,
               wrapped_est := s.estimator }
  else s

theorem rstep_eq_obCombine (acc : Option (ℚ × ℚ)) (x : ℚ) :
    rstep acc x = obCombine acc (some (x, x)) := by
  cases acc with
  | none => rfl
  | some p => cases p; rfl

theorem obCombine_none (a : Option (ℚ × ℚ)) : obCombine a none = a := by
  cases a with
  | none => rfl
  | some p => cases p; rfl

theorem obCombine_assoc (a b c : Option (ℚ × ℚ)) :
    obCombine (obCombine a b) c = obCombine a (obCombine b c) := by
  cases a with
  | none => rfl
  | some p =>
    cases b with
    | none => rfl
    | some q =>
      cases c with
      | none => rfl
      | some r =>
        cases p; cases q; cases r
        simp [obCombine, min_assoc, max_assoc]

theorem range_foldl_shift (b : List ℚ) (acc : Option (ℚ × ℚ)) :
    b.foldl rstep acc = obCombine acc (b.foldl rstep none) := by
  induction b generalizing acc with
  | nil => simp [List.foldl, obCombine_none]
  | cons x xs ih =>
    show xs.foldl rstep (rstep acc x)
      = obCombine acc (xs.foldl rstep (rstep none x))
    rw [ih (rstep acc x), ih (rstep none x), rstep_eq_obCombine acc x,
      rstep_eq_obCombine none x, obCombine_assoc]
    rfl

/-- The range accumulator is a homomorphism from list concatenation. -/
theorem rangeCombine_update (a b : List ℚ) :
    rangeCombine (rangeUpdate a) (rangeUpdate b) = rangeUpdate (a ++ b) := by
  unfold rangeCombine rangeUpdate
  simp only [List.foldl_append, List.length_append]
  rw [range_foldl_shift b (a.foldl rstep none)]

theorem rangeIncFit_eq (L : List (List ℚ)) :
    rangeIncFit L = rangeUpdate L.flatten := by
  unfold rangeIncFit
  suffices h : ∀ (a : List ℚ),
      L.foldl (fun st b => rangeCombine st (rangeUpdate b)) (rangeUpdate a)
        = rangeUpdate (a ++ L.flatten) by
    simpa using h []
  induction L with
  | nil => intro a; simp
  | cons b rest ih =>
    intro a
    simp only [List.foldl, List.flatten]
    rw [rangeCombine_update a b, ih (a ++ b)]
    simp [List.append_assoc]

theorem sum_sq_dev (b : List ℚ) (m : ℚ) :
    (b.map (fun x => (x - m) ^ 2)).sum
      = sumSq b - 2 * m * b.sum + (b.length : ℚ) * m ^ 2 := by
  induction b with
  | nil => simp [sumSq]
  | cons x xs ih =>
    simp only [List.map_cons, List.sum_cons, List.length_cons, sumSq] at *
    rw [ih]
    push_cast
    ring

theorem m2_closed (b : List ℚ) :
    (b.map (fun x => (x - b.sum / (b.length : ℚ)) ^ 2)).sum
      = sumSq b - b.sum ^ 2 / (b.length : ℚ) := by
  rcases eq_or_ne b [] with h | h
  · subst h; simp [sumSq]
  · have hn : (b.length : ℚ) ≠ 0 := by
      exact_mod_cast Nat.cast_ne_zero.mpr (List.length_pos.mpr h).ne'
    rw [sum_sq_dev]
    field_simp
    ring

/-- The mean/variance accumulator is a homomorphism from list concatenation:
the Chan formula merges two exact batch statistics into the exact statistic
of the concatenated batch. -/
theorem mvCombine_update (a b : List ℚ) :
    mvCombine (mvUpdate a) (mvUpdate b) = mvUpdate (a ++ b) := by
  have key : ∀ (u : List ℚ),
      (u.map (fun x => (x - u.sum / (u.length : ℚ)) ^ 2)).sum
        = sumSq u - u.sum ^ 2 / (u.length : ℚ) := m2_closed
  rcases eq_or_ne a [] with ha | ha
  · subst ha
    rcases eq_or_ne b [] with hb | hb
    · subst hb
      ext <;> simp [mvCombine, mvUpdate]
    · have hn : ((b.length : ℚ)) ≠ 0 := by
        exact_mod_cast Nat.cast_ne_zero.mpr (List.length_pos.mpr hb).ne'
      ext
      · simp [mvCombine, mvUpdate]
      · simp only [mvCombine, mvUpdate, List.nil_append, List.sum_nil,
          List.length_nil, Nat.cast_zero, zero_div, sub_zero, zero_add]
        field_simp
      · simp only [mvCombine, mvUpdate, List.nil_append, List.sum_nil,
          List.length_nil, Nat.cast_zero, List.map_nil]
        field_simp
  · rcases eq_or_ne b [] with hb | hb
    · subst hb
      ext
      · simp [mvCombine, mvUpdate]
      · simp only [mvCombine, mvUpdate, List.append_nil, List.sum_nil,
          List.length_nil, Nat.cast_zero, zero_div]
        simp
      · simp only [mvCombine, mvUpdate, List.append_nil, List.sum_nil,
          List.length_nil, Nat.cast_zero, List.map_nil]
        simp
    · have hna : ((a.length : ℚ)) ≠ 0 := by
        exact_mod_cast Nat.cast_ne_zero.mpr (List.length_pos.mpr ha).ne'
      have hnb : ((b.length : ℚ)) ≠ 0 := by
        exact_mod_cast Nat.cast_ne_zero.mpr (List.length_pos.mpr hb).ne'
      have hpa : (0 : ℚ) < (a.length : ℚ) := by
        exact_mod_cast List.length_pos.mpr ha
      have hpb : (0 : ℚ) < (b.length : ℚ) := by
        exact_mod_cast List.length_pos.mpr hb
      have hnab : ((a.length : ℚ) + (b.length : ℚ)) ≠ 0 := by positivity
      ext
      · simp [mvCombine, mvUpdate]
      · simp only [mvCombine, mvUpdate, List.length_append, List.sum_append,
          Nat.cast_add]
        field_simp
        ring
      · simp only [mvCombine, mvUpdate, List.length_append, List.sum_append,
          Nat.cast_add]
        rw [key a, key b]
        have h3 : ((a ++ b).map
            (fun x => (x - (a ++ b).sum / ((a ++ b).length : ℚ)) ^ 2)).sum
            = sumSq (a ++ b) - (a ++ b).sum ^ 2 / ((a ++ b).length : ℚ) :=
          key (a ++ b)
        simp only [List.length_append, List.sum_append, Nat.cast_add] at h3
        rw [h3]
        simp only [sumSq, List.map_append, List.sum_append]
        field_simp
        ring

theorem mvIncFit_eq (L : List (List ℚ)) :
    mvIncFit L = mvUpdate L.flatten := by
  unfold mvIncFit
  suffices h : ∀ (a : List ℚ),
      L.foldl (fun st b => mvCombine st (mvUpdate b)) (mvUpdate a)
        = mvUpdate (a ++ L.flatten) by
    simpa using h []
  induction L with
  | nil => intro a; simp
  | cons b rest ih =>
    intro a
    simp only [List.foldl, List.flatten]
    rw [mvCombine_update a b, ih (a ++ b)]
    simp [List.append_assoc]

theorem catCombine_update (a b : List ℤ) :
    catCombine (catUpdate a) (catUpdate b) = catUpdate (a ++ b) := by
  simp [catCombine, catUpdate]

theorem catIncFit_eq (M : List (List ℤ)) :
    catIncFit M = catUpdate M.flatten := by
  unfold catIncFit
  suffices h : ∀ (a : List ℤ),
      M.foldl (fun st b => catCombine st (catUpdate b)) (catUpdate a)
        = catUpdate (a ++ M.flatten) by
    simpa using h []
  induction M with
  | nil => intro a; simp
  | cons b rest ih =>
    intro a
    simp only [List.foldl, List.flatten]
    rw [catCombine_update a b, ih (a ++ b)]
    simp [List.append_assoc]

theorem scCombine_update (a b : List (ℕ × ℚ)) :
    scCombine (scUpdate a) (scUpdate b) = scUpdate (a ++ b) := by
  funext c
  simp [scCombine, scUpdate, List.filter_append]

theorem scIncFit_eq (S : List (List (ℕ × ℚ))) :
    scIncFit S = scUpdate S.flatten := by
  unfold scIncFit
  suffices h : ∀ (a : List (ℕ × ℚ)),
      S.foldl (fun st b => scCombine st (scUpdate b)) (scUpdate a)
        = scUpdate (a ++ S.flatten) by
    simpa using h []
  induction S with
  | nil => intro a; simp
  | cons b rest ih =>
    intro a
    simp only [List.foldl, List.flatten]
    rw [scCombine_update a b, ih (a ++ b)]
    simp [List.append_assoc]

/-! ### Claim C1: partition invariance -/

/-- C1: for every dataset D and every partition of D into batches B1..Bn,
incrementally training by merging update(B1)..update(Bn) with `combine`
yields the same accumulator state — and hence the same TrainedParams —
as a single `update` (one-shot fit) over all of D, for every accumulator
kind except median/mode: the range, mean/variance, category-set and
univariate-score accumulators. In the rational model the equality is
exact, which implies the spec's 1e-6 relative tolerance. -/
theorem c1_partition_invariance (L : List (List ℚ)) (M : List (List ℤ))
    (S : List (List (ℕ × ℚ))) (low high : ℚ) :
    rangeIncFit L = rangeUpdate L.flatten
      ∧ rangeFinalize low high (rangeIncFit L)
          = rangeFinalize low high (rangeUpdate L.flatten)
      ∧ mvIncFit L = mvUpdate L.flatten
      ∧ mvFinalize (mvIncFit L) = mvFinalize (mvUpdate L.flatten)
      ∧ catIncFit M = catUpdate M.flatten
      ∧ catFinalize (catIncFit M) = catFinalize (catUpdate M.flatten)
      ∧ scIncFit S = scUpdate S.flatten := by
  refine ⟨rangeIncFit_eq L, ?_, mvIncFit_eq L, ?_, catIncFit_eq M, ?_,
    scIncFit_eq S⟩
  · rw [rangeIncFit_eq L]
  · rw [mvIncFit_eq L]
  · rw [catIncFit_eq M]

theorem pipeOne_cons (s : SchedStep σ) (a : σ)
    (rest : List (SchedStep σ × σ)) (b : List ℚ) :
    pipeOne ((s, a) :: rest) b
      = (s, (schedTask s a b).1) :: pipeOne rest (schedTask s a b).2 := rfl

/-- Folding batches through `pipeOne` decomposes: the head step folds all
batches on its own (exactly the StepPriority inner loop), and the tail
steps fold the head's transformed outputs. -/
theorem foldl_pipeOne_cons (s : SchedStep σ) (a : σ)
    (rest : List (SchedStep σ × σ)) (bs : List (List ℚ)) :
    bs.foldl pipeOne ((s, a) :: rest)
      = (s, (runStepAll s a bs).1) :: (runStepAll s a bs).2.foldl pipeOne rest := by
  induction bs generalizing a rest with
  | nil => rfl
  | cons b bs ih =>
    simp only [List.foldl, pipeOne_cons, runStepAll]
    rw [ih]

theorem foldl_pipeOne_nil (bs : List (List ℚ)) :
    bs.foldl pipeOne ([] : List (SchedStep σ × σ)) = [] := by
  induction bs with
  | nil => rfl
  | cons b rest ih => simpa [pipeOne] using ih

/-! ### Claim C2: scheduling-policy equivalence -/

/-- C2: for every pipeline (list of steps) and every finite batch
sequence, `fit_with_batches` under the StepPriority policy and under the
BatchPriority policy produce identical final accumulator states — hence
identical final TrainedParams — for every step of the pipeline. -/
theorem c2_policy_equivalence (steps : List (SchedStep σ))
    (bs : List (List ℚ)) :
    execBatchPrio steps bs = execStepPrio steps bs := by
  unfold execBatchPrio
  induction steps generalizing bs with
  | nil => simp [execStepPrio, foldl_pipeOne_nil]
  | cons s rest ih =>
    simp only [List.map, foldl_pipeOne_cons, execStepPrio]
    rw [ih]

/-! ### Claim C3: backend equivalence -/

/-- C3: for every logical dataset, fitting on the in-memory backend and
fitting on the distributed backend (any partitioning of the same rows)
produce equal TrainedParams — min/max, mean/variance, categories — and
equal row-aligned transform outputs. -/
theorem c3_backend_equivalence (P : List (List ℚ)) (D : List ℚ)
    (hP : P.flatten = D) (Q : List (List ℤ)) (C : List ℤ)
    (hQ : Q.flatten = C) (low high : ℚ) (rows : List ℚ) :
    sparkFitMM low high P = pandasFitMM low high D
      ∧ sparkFitMV P = pandasFitMV D
      ∧ sparkFitCat Q = pandasFitCat C
      ∧ mmTransformCol (sparkFitMM low high P) rows
          = mmTransformCol (pandasFitMM low high D) rows := by
  have hmm : sparkFitMM low high P = pandasFitMM low high D := by
    unfold sparkFitMM pandasFitMM
    rw [rangeIncFit_eq, hP]
  refine ⟨hmm, ?_, ?_, by rw [hmm]⟩
  · unfold sparkFitMV pandasFitMV
    rw [mvIncFit_eq, hP]
  · unfold sparkFitCat pandasFitCat
    rw [catIncFit_eq, hQ]

/-- Witness for C3 at a concrete partitioned dataset. -/
theorem c3_backend_equivalence_witness :
    ([[1, 2], [3]] : List (List ℚ)).flatten = [1, 2, 3]
      ∧ ([[5], [5, 7]] : List (List ℤ)).flatten = [5, 5, 7]
      ∧ (sparkFitMM 0 1 [[1, 2], [3]] = pandasFitMM 0 1 [1, 2, 3]
          ∧ sparkFitMV [[1, 2], [3]] = pandasFitMV [1, 2, 3]
          ∧ sparkFitCat [[5], [5, 7]] = pandasFitCat [5, 5, 7]
          ∧ mmTransformCol (sparkFitMM 0 1 [[1, 2], [3]]) [1, 2, 3]
              = mmTransformCol (pandasFitMM 0 1 [1, 2, 3]) [1, 2, 3]) :=
  ⟨rfl, rfl, c3_backend_equivalence [[1, 2], [3]] [1, 2, 3] rfl
    [[5], [5, 7]] [5, 5, 7] rfl 0 1 [1, 2, 3]⟩

/-! ### Claim C4: most-frequent tie-break -/

theorem foldr_max_mem (xs : List ℕ) (h : xs ≠ []) : xs.foldr max 0 ∈ xs := by
  induction xs with
  | nil => exact absurd rfl h
  | cons x ys ih =>
    cases ys with
    | nil => simp
    | cons y zs =>
      have ihm := ih (by simp)
      show max x ((y :: zs).foldr max 0) ∈ x :: y :: zs
      rcases le_total ((y :: zs).foldr max 0) x with hle | hle
      · rw [max_eq_left hle]
        exact List.mem_cons_self _ _
      · rw [max_eq_right hle]
        exact List.mem_cons_of_mem _ ihm

theorem maxCount_attained {α : Type} [DecidableEq α] (l : List α)
    (h : l ≠ []) : ∃ v ∈ l, l.count v = maxCount l := by
  have hm : maxCount l ∈ l.map (fun v => l.count v) :=
    foldr_max_mem _ (by simpa using h)
  obtain ⟨v, hv, hcount⟩ := List.mem_map.mp hm
  exact ⟨v, hv, hcount⟩

theorem freqModes_ne_nil {α : Type} [DecidableEq α] (l : List α)
    (h : l ≠ []) : freqModes l ≠ [] := by
  obtain ⟨v, hv, hc⟩ := maxCount_attained l h
  intro hnil
  have hmem : v ∈ freqModes l := List.mem_filter.mpr ⟨hv, by simpa using hc⟩
  rw [hnil] at hmem
  exact absurd hmem (List.not_mem_nil v)

/-- The largest tied value is a maximum-frequency value of the column and
dominates every other maximum-frequency value. -/
theorem freqModes_maximum_spec {α : Type} [DecidableEq α] [LinearOrder α]
    (l : List α) (h : l ≠ []) :
    ∃ v : α, (freqModes l).maximum = (v : WithBot α) ∧ v ∈ l
      ∧ l.count v = maxCount l
      ∧ ∀ w ∈ l, l.count w = maxCount l → w ≤ v := by
  have hne : freqModes l ≠ [] := freqModes_ne_nil l h
  cases hmax : (freqModes l).maximum with
  | bot => exact absurd hmax (List.maximum_ne_bot_of_ne_nil hne)
  | coe v =>
    have hvmem : v ∈ freqModes l := List.maximum_mem hmax
    obtain ⟨hvl, hvc⟩ := List.mem_filter.mp hvmem
    refine ⟨v, rfl, hvl, by simpa using hvc, ?_⟩
    intro w hw hwc
    have hwmem : w ∈ freqModes l :=
      List.mem_filter.mpr ⟨hw, by simpa using hwc⟩
    have := List.le_maximum_of_mem hwmem hmax
    exact_mod_cast this

/-- C4 counterexample: the claim's general rule ("pick the smallest value
tied for the maximum count") contradicts the claim's own expected outputs
and the test suite. On the numeric example the smallest tied value is 14,
not the claimed 15; on the string example it is "f", not the claimed "m";
the modelled finalize produces the claimed 15 and "m". -/
theorem c4_counterexample :
    specSmallestNum numExample = ((14 : ℚ) : WithTop ℚ)
      ∧ specSmallestNum numExample ≠ ((15 : ℚ) : WithTop ℚ)
      ∧ mostFrequentNum numExample = ((15 : ℚ) : WithBot ℚ)
      ∧ specSmallestStr "missing" strExample = some "f"
      ∧ specSmallestStr "missing" strExample ≠ some "m"
      ∧ mostFrequentStr "missing" strExample = some "m" := by
  refine ⟨by decide, by decide, by decide, ?_, ?_, ?_⟩
  · decide
  · decide
  · decide

/-- C4 (amended): for every nonempty column, the frequency-table finalize
returns the LARGEST value (by natural ordering) among those tied for the
maximum count; in particular, [10,14,15,15,14,NaN] yields 15 and
["t","f","m","f","m","missing"] with sentinel "missing" yields "m". -/
theorem c4_most_frequent_tie_break (l : List ℚ) (h : l ≠ []) :
    (∃ v : ℚ, (freqModes l).maximum = (v : WithBot ℚ) ∧ v ∈ l
        ∧ l.count v = maxCount l
        ∧ ∀ w ∈ l, l.count w = maxCount l → w ≤ v)
      ∧ mostFrequentNum numExample = ((15 : ℚ) : WithBot ℚ)
      ∧ mostFrequentStr "missing" strExample = some "m" :=
  ⟨freqModes_maximum_spec l h, by decide, by decide⟩

/-- Witness for C4 (amended) at the spec's numeric example column. -/
theorem c4_most_frequent_tie_break_witness :
    ([some 10, some 14, some 15, some 15, some 14, none].filterMap id
        : List ℚ) ≠ []
      ∧ ((∃ v : ℚ,
            (freqModes (numExample.filterMap id)).maximum = (v : WithBot ℚ)
            ∧ v ∈ numExample.filterMap id
            ∧ (numExample.filterMap id).count v
                = maxCount (numExample.filterMap id)
            ∧ ∀ w ∈ numExample.filterMap id,
                (numExample.filterMap id).count w
                  = maxCount (numExample.filterMap id) → w ≤ v)
          ∧ mostFrequentNum numExample = ((15 : ℚ) : WithBot ℚ)
          ∧ mostFrequentStr "missing" strExample = some "m") :=
  ⟨by decide, c4_most_frequent_tie_break (numExample.filterMap id) (by decide)⟩

/-! ### Claim C5: median / most_frequent reject incremental fit -/

/-- C5: an imputer configured with the median or most_frequent strategy
rejects incremental fitting with a validation error for every state and
batch (no approximate statistic is ever produced), while the mean
strategy merges the batch statistic. -/
theorem c5_median_mode_incremental_rejected (st : ImpState) (b : List ℚ) :
    imputerIncrFit .median st b = .error .validationError
      ∧ imputerIncrFit .mostFrequent st b = .error .validationError
      ∧ imputerIncrFit .mean st b = .ok (impCombine st (impUpdate b)) :=
  ⟨rfl, rfl, rfl⟩

/-! ### Claim C6: SelectKBest and the distributed backend -/

/-- C6 counterexample: a fit of SelectKBest on data materialized on the
distributed Spark backend with a stable row index succeeds (as the test
suite asserts), so "every fit on data materialized on the Spark backend
raises BackendUnsupportedOperation" is false. -/
theorem c6_counterexample :
    selectKBestFit .sparkWithIndex [(0, 1), (1, 2)]
        = .ok (skbSummaries [(0, 1), (1, 2)])
      ∧ selectKBestFit .sparkWithIndex [(0, 1), (1, 2)]
          ≠ .error .backendUnsupported := by
  constructor
  · rfl
  · intro hcon
    have hok : selectKBestFit .sparkWithIndex [(0, 1), (1, 2)]
        = .ok (skbSummaries [(0, 1), (1, 2)]) := rfl
    rw [hok] at hcon
    exact Except.noConfusion hcon

/-- C6 (amended): every fit of SelectKBest on the plain distributed
backend (no row index) fails fast with BackendUnsupportedOperation, while
the same operator fits successfully on the in-memory backend and on the
distributed backend with a stable row index. -/
theorem c6_select_k_best_backend (X : List (ℕ × ℚ)) (h : X ≠ []) :
    selectKBestFit .spark X = .error .backendUnsupported
      ∧ selectKBestFit .pandas X = .ok (skbSummaries X)
      ∧ selectKBestFit .sparkWithIndex X = .ok (skbSummaries X) := by
  refine ⟨rfl, ?_, ?_⟩ <;> simp [selectKBestFit, h]

/-- Witness for C6 at a concrete labeled dataset. -/
theorem c6_select_k_best_backend_witness :
    ([(0, 1), (1, 2)] : List (ℕ × ℚ)) ≠ []
      ∧ (selectKBestFit .spark [(0, 1), (1, 2)] = .error .backendUnsupported
          ∧ selectKBestFit .pandas [(0, 1), (1, 2)]
              = .ok (skbSummaries [(0, 1), (1, 2)])
          ∧ selectKBestFit .sparkWithIndex [(0, 1), (1, 2)]
              = .ok (skbSummaries [(0, 1), (1, 2)])) :=
  ⟨by decide, c6_select_k_best_backend [(0, 1), (1, 2)] (by decide)⟩

/-! ### Claim C7: degenerate (constant) column -/

theorem rstep_const_acc (xs : List ℚ) (c : ℚ) (h : ∀ x ∈ xs, x = c) :
    xs.foldl rstep (some (c, c)) = some (c, c) := by
  induction xs with
  | nil => rfl
  | cons x ys ih =>
    have hx : x = c := h x (List.mem_cons_self x ys)
    have hys : ∀ y ∈ ys, y = c := fun y hy => h y (List.mem_cons_of_mem x hy)
    show ys.foldl rstep (rstep (some (c, c)) x) = some (c, c)
    rw [hx]
    have hr : rstep (some (c, c)) c = some (c, c) := by
      simp [rstep]
    rw [hr]
    exact ih hys

theorem rangeUpdate_const (l : List ℚ) (c : ℚ) (h : ∀ x ∈ l, x = c)
    (hne : l ≠ []) : (rangeUpdate l).bounds = some (c, c) := by
  cases l with
  | nil => exact absurd rfl hne
  | cons x xs =>
    have hx : x = c := h x (List.mem_cons_self x xs)
    have hxs : ∀ y ∈ xs, y = c := fun y hy => h y (List.mem_cons_of_mem x hy)
    show (x :: xs).foldl rstep none = some (c, c)
    simp only [List.foldl]
    rw [hx]
    exact rstep_const_acc xs c hxs

/-- C7: a column that is constant across all batches (observed max ==
min) fits successfully (the zero range maps to the safe scale high - low,
with no division-by-zero failure), and transforming any of its rows with
the trained scaler returns the configured output minimum. -/
theorem c7_degenerate_range (L : List (List ℚ)) (c low high : ℚ)
    (hconst : ∀ b ∈ L, ∀ x ∈ b, x = c) (hne : L.flatten ≠ []) :
    (rangeFinalize low high (rangeIncFit L)).isSome = true
      ∧ (rangeFinalize low high (rangeIncFit L)).map (fun p => p.scale)
          = some (high - low)
      ∧ ∀ x ∈ L.flatten,
          (rangeFinalize low high (rangeIncFit L)).map
              (fun p => mmTransform p x)
            = some low := by
  have hflat : ∀ x ∈ L.flatten, x = c := by
    intro x hx
    obtain ⟨b, hb, hxb⟩ := List.mem_flatten.mp hx
    exact hconst b hb x hxb
  have hbounds : (rangeIncFit L).bounds = some (c, c) := by
    rw [rangeIncFit_eq]
    exact rangeUpdate_const _ c hflat hne
  have hfin : rangeFinalize low high (rangeIncFit L)
      = some ⟨c, c, high - low, low - c * (high - low)⟩ := by
    unfold rangeFinalize
    rw [hbounds]
    simp [safeDenom]
  have htr : mmTransform ⟨c, c, high - low, low - c * (high - low)⟩ c
      = low := by
    show c * (high - low) + (low - c * (high - low)) = low
    ring
  refine ⟨by rw [hfin]; rfl, by rw [hfin]; rfl, ?_⟩
  intro x hx
  rw [hfin, hflat x hx]
  simp [htr]

/-- Witness for C7 at a concrete constant column split into two batches. -/
theorem c7_degenerate_range_witness :
    (∀ b ∈ ([[2], [2, 2]] : List (List ℚ)), ∀ x ∈ b, x = 2)
      ∧ ([[2], [2, 2]] : List (List ℚ)).flatten ≠ []
      ∧ ((rangeFinalize 0 1 (rangeIncFit [[2], [2, 2]])).isSome = true
          ∧ (rangeFinalize 0 1 (rangeIncFit [[2], [2, 2]])).map
                (fun p => p.scale)
              = some (1 - 0)
          ∧ ∀ x ∈ ([[2], [2, 2]] : List (List ℚ)).flatten,
              (rangeFinalize 0 1 (rangeIncFit [[2], [2, 2]])).map
                  (fun p => mmTransform p x)
                = some 0) :=
  ⟨by decide, by decide,
    c7_degenerate_range [[2], [2, 2]] 2 0 1 (by decide) (by decide)⟩

/-! ### Claim C8: constant-fill defaults -/

/-- C8: with the constant strategy and no explicit fill_value, the fill
value is 0 for numeric columns and "missing_value" for string columns;
transform replaces exactly the missing cells with that value, and no
missing cell survives the transform. -/
theorem c8_constant_fill_defaults (colN colS : List CellVal) (dt : Dtype) :
    constantFillValue .numericCol none = .num 0
      ∧ constantFillValue .stringCol none = .str "missing_value"
      ∧ imputeTransform (constantFillValue .numericCol none) colN
          = colN.map (fun cell => if cell = .missing then .num 0 else cell)
      ∧ imputeTransform (constantFillValue .stringCol none) colS
          = colS.map
              (fun cell =>
                if cell = .missing then .str "missing_value" else cell)
      ∧ CellVal.missing ∉ imputeTransform (constantFillValue dt none) colN := by
  refine ⟨rfl, rfl, rfl, rfl, ?_⟩
  intro hmem
  unfold imputeTransform at hmem
  obtain ⟨cell, hcell, heq⟩ := List.mem_map.mp hmem
  by_cases hc : cell = .missing
  · rw [if_pos hc] at heq
    cases dt <;> simp [constantFillValue, defaultFill] at heq
  · rw [if_neg hc] at heq
    exact hc heq

/-! ### Claim C9: BaggingRegressor fit mutates its hyperparameters -/

theorem comp_ne (e : EstVal) : EstVal.comp e ≠ e := by
  induction e with
  | noneE => exact fun h => EstVal.noConfusion h
  | deprecatedE => exact fun h => EstVal.noConfusion h
  | baseOp => exact fun h => EstVal.noConfusion h
  | comp f ih => exact fun h => ih (EstVal.comp.inj h)

/-- C9: on a DataFrame input, fit replaces the selected estimator
hyperparameter with the composition (FunctionTransformer >> estimator)
and rebuilds the wrapped model from the updated hyperparameters, so fit
mutates the hyperparameter state; a second DataFrame fit wraps a second
time, so fit is not idempotent on that state. On non-DataFrame inputs the
state is left unchanged. -/
theorem c9_bagging_fit_mutates (s : BRState) :
    brFit false s = s
      ∧ estSlot (brFit true s) = EstVal.comp (estSlot s)
      ∧ (brFit true s).wrapped_est = (brFit true s).estimator
      ∧ (brFit true s).wrapped_base = (brFit true s).base_estimator
      ∧ brFit true s ≠ s
      ∧ estSlot (brFit true (brFit true s))
          = EstVal.comp (EstVal.comp (estSlot s))
      ∧ brFit true (brFit true s) ≠ brFit true s := by
  obtain ⟨be, est, wb, we⟩ := s
  cases be with
  | noneE =>
    exact ⟨rfl, rfl, rfl, rfl,
      fun h => comp_ne est (congrArg BRState.estimator h), rfl,
      fun h => comp_ne (EstVal.comp est) (congrArg BRState.estimator h)⟩
  | deprecatedE =>
    exact ⟨rfl, rfl, rfl, rfl,
      fun h => comp_ne est (congrArg BRState.estimator h), rfl,
      fun h => comp_ne (EstVal.comp est) (congrArg BRState.estimator h)⟩
  | baseOp =>
    exact ⟨rfl, rfl, rfl, rfl,
      fun h => comp_ne EstVal.baseOp (congrArg BRState.base_estimator h), rfl,
      fun h => comp_ne (EstVal.comp EstVal.baseOp)
        (congrArg BRState.base_estimator h)⟩
  | comp f =>
    exact ⟨rfl, rfl, rfl, rfl,
      fun h => comp_ne (EstVal.comp f) (congrArg BRState.base_estimator h),
      rfl,
      fun h => comp_ne (EstVal.comp (EstVal.comp f))
        (congrArg BRState.base_estimator h)⟩

/-! ### Claim C10: MinMaxScaler construction-time validation -/

/-- C10: constructing the incremental min-max scaler with copy=False or
with clip=True fails schema validation at construction time, for every
feature range and regardless of the other flag; the copy=True, clip=False
configuration is accepted. -/
theorem c10_min_max_scaler_construction (lo hi : ℚ) (c k : Bool) :
    mkMinMaxScaler ⟨lo, hi, false, k⟩ = .error .validationError
      ∧ mkMinMaxScaler ⟨lo, hi, c, true⟩ = .error .validationError
      ∧ mkMinMaxScaler ⟨lo, hi, true, false⟩ = .ok (lo, hi) := by
  refine ⟨rfl, ?_, rfl⟩
  cases c <;> rfl
